import Mathlib

/-!
Shallow embedding of the `uc-rust` interpreter (a small imperative language
with numbers, booleans, variables, arithmetic, comparison, assignment,
conditionals, sequencing and while-loops) and proofs of the spec's claims.

Two execution modes are embedded, one per source file:
  * `src/src/main.rs`          — small-step semantics: `Expr.is_reducible`,
    `Expr.reduce`, `Stmt.is_reducible`, `Stmt.reduce`, and the `Machine`
    driver that applies `Stmt.reduce` repeatedly.
  * `src/src/bin/big_step_semantics.rs` — big-step semantics:
    `Expr.evalute`, `Stmt.evalute` (the misspelling is the source's).

Rust panics (`panic!("invalid expr")`, unbound-variable indexing,
`reduce()` on a non-reducible term) are modelled as `none`; the possibly
non-terminating big-step `Stmt::evalute` is modelled with a fuel parameter
that decreases only at the `While` self-recursion.

The Rust `Environment` is `HashMap<String, Expr>`; it is modelled as an
association list with a replacing `insert`, with `lookup` returning the
unique binding.  Machine integers (`i64`) are modelled as `Int`; no claim
exercises overflow.
-/

set_option maxRecDepth 4000

/-- The expression grammar of `main.rs` / `big_step_semantics.rs`:
`Number(i64)`, `Add`, `Multiply`, `Boolean(bool)`, `LessThan`, `Variable(String)`. -/
inductive Expr where
| Number : Int → Expr
| Add : Expr → Expr → Expr
| Multiply : Expr → Expr → Expr
| Boolean : Bool → Expr
| LessThan : Expr → Expr → Expr
| Variable : String → Expr
deriving DecidableEq, Repr

/-- The Rust `Environment` type alias: a map from variable names to
expressions, modelled as an association list. -/
abbrev Environment := List (String × Expr)

/-- Lookup of a name in the environment (Rust `env[name]`, which panics —
here `none` — when the key is absent). -/
def Environment.lookup : Environment → String → Option Expr
| [], _ => none
| (k, v) :: rest, name => if k = name then some v else Environment.lookup rest name

/-- `HashMap::insert`: replace the binding of `name` if present, otherwise
add it. -/
def Environment.insert : Environment → String → Expr → Environment
| [], name, v => [(name, v)]
| (k, w) :: rest, name, v =>
    if k = name then (name, v) :: rest
    else (k, w) :: Environment.insert rest name v

/-- `Expr::is_reducible` from `main.rs`: literals are not reducible,
everything else is. -/
def Expr.is_reducible : Expr → Bool
| .Number _ => false
| .Add _ _ => true
| .Multiply _ _ => true
| .Boolean _ => false
| .LessThan _ _ => true
| .Variable _ => true

/-- `Expr::reduce` from `main.rs`.  One small step: binary operators reduce
the left operand if reducible, else the right, else collapse two `Number`
literals (`panic!("invalid expr")` — `none` — otherwise); `Variable` is
replaced by its binding (panic — `none` — when unbound); literals panic
(`"reduce() not supported"` — `none`). -/
def Expr.reduce : Expr → Environment → Option Expr
| .Add l r, env =>
    if l.is_reducible then (l.reduce env).map (fun x => .Add x r)
    else if r.is_reducible then (r.reduce env).map (fun x => .Add l x)
    else match l, r with
      | .Number a, .Number b => some (.Number (a + b))
      | _, _ => none
| .Multiply l r, env =>
    if l.is_reducible then (l.reduce env).map (fun x => .Multiply x r)
    else if r.is_reducible then (r.reduce env).map (fun x => .Multiply l x)
    else match l, r with
      | .Number a, .Number b => some (.Number (a * b))
      | _, _ => none
| .LessThan l r, env =>
    if l.is_reducible then (l.reduce env).map (fun x => .LessThan x r)
    else if r.is_reducible then (r.reduce env).map (fun x => .LessThan l x)
    else match l, r with
      | .Number a, .Number b => some (.Boolean (decide (a < b)))
      | _, _ => none
| .Variable name, env => env.lookup name
| .Number _, _ => none
| .Boolean _, _ => none

/-- `Expr::evalute` from `big_step_semantics.rs` (big-step).  Literals
evaluate to themselves; `Variable` returns its binding verbatim (panic —
`none` — when unbound); binary operators evaluate both operands and demand
two `Number`s (`LessThan` compares, the others compute), panicking —
`none` — otherwise. -/
def Expr.evalute : Expr → Environment → Option Expr
| .Number n, _ => some (.Number n)
| .Boolean b, _ => some (.Boolean b)
| .Variable name, env => env.lookup name
| .Add l r, env =>
    match l.evalute env, r.evalute env with
    | some (.Number a), some (.Number b) => some (.Number (a + b))
    | _, _ => none
| .Multiply l r, env =>
    match l.evalute env, r.evalute env with
    | some (.Number a), some (.Number b) => some (.Number (a * b))
    | _, _ => none
| .LessThan l r, env =>
    match l.evalute env, r.evalute env with
    | some (.Number a), some (.Number b) => some (.Boolean (decide (a < b)))
    | _, _ => none

/-- The statement grammar shared by both source files. -/
inductive Stmt where
| DoNothing : Stmt
| Assign : String → Expr → Stmt
| If : Expr → Stmt → Stmt → Stmt
| Sequence : Stmt → Stmt → Stmt
| While : Expr → Stmt → Stmt
deriving DecidableEq, Repr

/-- `Stmt::is_reducible` from `main.rs`: only `DoNothing` is terminal. -/
def Stmt.is_reducible : Stmt → Bool
| .DoNothing => false
| .Assign _ _ => true
| .If _ _ _ => true
| .Sequence _ _ => true
| .While _ _ => true

/-- `Stmt::reduce` from `main.rs`.  One small step on a statement together
with the environment it produces; `panic!` is `none`. -/
def Stmt.reduce : Stmt → Environment → Option (Stmt × Environment)
| .Assign name expr, env =>
    if expr.is_reducible then
      (expr.reduce env).map (fun x => (.Assign name x, env))
    else some (.DoNothing, env.insert name expr)
| .If c t e, env =>
    if c.is_reducible then
      (c.reduce env).map (fun x => (.If x t e, env))
    else match c with
      | .Boolean true => some (t, env)
      | .Boolean false => some (e, env)
      | _ => none
| .Sequence first second, env =>
    match first with
    | .DoNothing => some (second, env)
    | _ => (first.reduce env).map (fun p => (.Sequence p.1 second, p.2))
| .While c b, env =>
    some (.If c (.Sequence b (.While c b)) .DoNothing, env)
| .DoNothing, _ => none

/-- `Stmt::evalute` from `big_step_semantics.rs` (big-step).  The Rust
recursion can fail to terminate (at `While`), so it is modelled with a fuel
parameter consumed at every recursive call; each clause otherwise mirrors
the source exactly.  The Rust call `stmt.evalute(env)` returns `E` iff
`Stmt.evalute fuel s env = some E` for some (equivalently, by
`Stmt.evalute_mono`, all sufficiently large) fuel. -/
def Stmt.evalute : Nat → Stmt → Environment → Option Environment
| 0, _, _ => none
| _ + 1, .DoNothing, env => some env
| _ + 1, .Assign name expr, env => (expr.evalute env).map (fun v => env.insert name v)
| fuel + 1, .If c t e, env =>
    match c.evalute env with
    | some (.Boolean true) => Stmt.evalute fuel t env
    | some (.Boolean false) => Stmt.evalute fuel e env
    | _ => none
| fuel + 1, .Sequence f s, env =>
    (Stmt.evalute fuel f env).bind (fun env1 => Stmt.evalute fuel s env1)
| fuel + 1, .While c b, env =>
    match c.evalute env with
    | some (.Boolean true) =>
        (Stmt.evalute fuel b env).bind (fun env1 => Stmt.evalute fuel (.While c b) env1)
    | some (.Boolean false) => some env
    | _ => none

/-- Iterating `Machine::step` (which applies `Stmt::reduce` and stores the
result): `Machine.steps n s env` is the machine state after `n` steps from
`(s, env)`, `none` if some step panicked. `Machine::run` drives this until
the statement is no longer reducible, i.e. is `DoNothing`. -/
def Machine.steps : Nat → Stmt → Environment → Option (Stmt × Environment)
| 0, s, env => some (s, env)
| n + 1, s, env =>
    match s.reduce env with
    | some (s1, env1) => Machine.steps n s1 env1
    | none => none

/-- An expression is a literal value: `Number` or `Boolean`. -/
def Expr.isLiteral : Expr → Bool
| .Number _ => true
| .Boolean _ => true
| _ => false

/-- A literal-only environment: every binding is a `Number` or `Boolean`. -/
def litEnv (env : Environment) : Bool :=
  env.all (fun p => p.2.isLiteral)

/-- A literal (`Number`/`Boolean`) big-step evaluates to itself. -/
theorem Expr.evalute_of_literal (v : Expr) (env : Environment)
    (h : v.isLiteral = true) : v.evalute env = some v := by
  cases v <;> simp_all [Expr.isLiteral, Expr.evalute]

/-- An expression is not reducible exactly when it is a literal. -/
theorem Expr.not_reducible_iff (e : Expr) :
    e.is_reducible = false ↔ e.isLiteral = true := by
  cases e <;> simp [Expr.is_reducible, Expr.isLiteral]

/-- A successful lookup returns a pair present in the environment. -/
theorem Environment.lookup_mem (env : Environment) (name : String) (v : Expr)
    (h : env.lookup name = some v) : (name, v) ∈ env := by
  induction env with
  | nil => simp [Environment.lookup] at h
  | cons p rest ih =>
      obtain ⟨k, w⟩ := p
      by_cases hk : k = name
      · subst hk
        simp [Environment.lookup] at h
        subst h
        exact List.mem_cons_self _ _
      · simp [Environment.lookup, hk] at h
        exact List.mem_cons_of_mem _ (ih h)

/-- Lookup fails exactly when no binding carries the name. -/
theorem Environment.lookup_eq_none_iff (env : Environment) (name : String) :
    env.lookup name = none ↔ ∀ p ∈ env, p.1 ≠ name := by
  induction env with
  | nil => simp [Environment.lookup]
  | cons p rest ih =>
      obtain ⟨k, w⟩ := p
      by_cases hk : k = name
      · subst hk
        simp [Environment.lookup]
      · simp [Environment.lookup, hk, ih]

/-- In a literal-only environment every successful lookup is a literal. -/
theorem litEnv_lookup (env : Environment) (name : String) (v : Expr)
    (hl : litEnv env = true) (h : env.lookup name = some v) :
    v.isLiteral = true := by
  have hmem := Environment.lookup_mem env name v h
  simp only [litEnv, List.all_eq_true] at hl
  exact hl (name, v) hmem

/-- Inserting a literal into a literal-only environment keeps it
literal-only. -/
theorem litEnv_insert (env : Environment) (name : String) (v : Expr)
    (hl : litEnv env = true) (hv : v.isLiteral = true) :
    litEnv (env.insert name v) = true := by
  induction env with
  | nil => simp [Environment.insert, litEnv, hv]
  | cons p rest ih =>
      obtain ⟨k, w⟩ := p
      have hw : w.isLiteral = true := by
        simp only [litEnv, List.all_cons, Bool.and_eq_true] at hl; exact hl.1
      have hrest : litEnv rest = true := by
        simp only [litEnv, List.all_cons, Bool.and_eq_true] at hl; exact hl.2
      by_cases hk : k = name
      · subst hk
        have heq : Environment.insert ((k, w) :: rest) k v = (k, v) :: rest := by
          simp [Environment.insert]
        rw [heq]
        simp only [litEnv, List.all_cons, Bool.and_eq_true]
        exact ⟨hv, hrest⟩
      · have heq : Environment.insert ((k, w) :: rest) name v =
            (k, w) :: Environment.insert rest name v := by
          simp [Environment.insert, hk]
        rw [heq]
        simp only [litEnv, List.all_cons, Bool.and_eq_true]
        exact ⟨hw, ih hrest⟩

/-- Under a literal-only environment, a successful big-step expression
evaluation always yields a literal. -/
theorem Expr.evalute_literal_result (e : Expr) (env : Environment) (v : Expr)
    (hl : litEnv env = true) (h : e.evalute env = some v) :
    v.isLiteral = true := by
  cases e with
  | Number n => simp [Expr.evalute] at h; subst h; rfl
  | Boolean b => simp [Expr.evalute] at h; subst h; rfl
  | Variable name => exact litEnv_lookup env name v hl h
  | Add l r =>
      simp only [Expr.evalute] at h
      split at h
      · simp only [Option.some.injEq] at h; subst h; rfl
      · exact absurd h (by simp)
  | Multiply l r =>
      simp only [Expr.evalute] at h
      split at h
      · simp only [Option.some.injEq] at h; subst h; rfl
      · exact absurd h (by simp)
  | LessThan l r =>
      simp only [Expr.evalute] at h
      split at h
      · simp only [Option.some.injEq] at h; subst h; rfl
      · exact absurd h (by simp)

/-- Unfolding of `Expr.reduce` at `Add`. -/
theorem Expr.reduce_add (l r : Expr) (env : Environment) :
    Expr.reduce (.Add l r) env =
      if l.is_reducible then (l.reduce env).map (fun x => .Add x r)
      else if r.is_reducible then (r.reduce env).map (fun x => .Add l x)
      else match l, r with
        | .Number a, .Number b => some (.Number (a + b))
        | _, _ => none := rfl

/-- Unfolding of `Expr.reduce` at `Multiply`. -/
theorem Expr.reduce_multiply (l r : Expr) (env : Environment) :
    Expr.reduce (.Multiply l r) env =
      if l.is_reducible then (l.reduce env).map (fun x => .Multiply x r)
      else if r.is_reducible then (r.reduce env).map (fun x => .Multiply l x)
      else match l, r with
        | .Number a, .Number b => some (.Number (a * b))
        | _, _ => none := rfl

/-- Unfolding of `Expr.reduce` at `LessThan`. -/
theorem Expr.reduce_less_than (l r : Expr) (env : Environment) :
    Expr.reduce (.LessThan l r) env =
      if l.is_reducible then (l.reduce env).map (fun x => .LessThan x r)
      else if r.is_reducible then (r.reduce env).map (fun x => .LessThan l x)
      else match l, r with
        | .Number a, .Number b => some (.Boolean (decide (a < b)))
        | _, _ => none := rfl

/-- Unfolding of `Expr.evalute` at `Add`. -/
theorem Expr.evalute_add (l r : Expr) (env : Environment) :
    Expr.evalute (.Add l r) env =
      match l.evalute env, r.evalute env with
      | some (.Number a), some (.Number b) => some (.Number (a + b))
      | _, _ => none := rfl

/-- Unfolding of `Expr.evalute` at `Multiply`. -/
theorem Expr.evalute_multiply (l r : Expr) (env : Environment) :
    Expr.evalute (.Multiply l r) env =
      match l.evalute env, r.evalute env with
      | some (.Number a), some (.Number b) => some (.Number (a * b))
      | _, _ => none := rfl

/-- Unfolding of `Expr.evalute` at `LessThan`. -/
theorem Expr.evalute_less_than (l r : Expr) (env : Environment) :
    Expr.evalute (.LessThan l r) env =
      match l.evalute env, r.evalute env with
      | some (.Number a), some (.Number b) => some (.Boolean (decide (a < b)))
      | _, _ => none := rfl

/-- Unfolding of `Stmt.evalute` at `If`. -/
theorem Stmt.evalute_if (fuel : Nat) (c : Expr) (t e : Stmt) (env : Environment) :
    Stmt.evalute (fuel + 1) (.If c t e) env =
      match c.evalute env with
      | some (.Boolean true) => Stmt.evalute fuel t env
      | some (.Boolean false) => Stmt.evalute fuel e env
      | _ => none := rfl

/-- Unfolding of `Stmt.evalute` at `Sequence`. -/
theorem Stmt.evalute_seq (fuel : Nat) (f s2 : Stmt) (env : Environment) :
    Stmt.evalute (fuel + 1) (.Sequence f s2) env =
      (Stmt.evalute fuel f env).bind (fun env1 => Stmt.evalute fuel s2 env1) := rfl

/-- Unfolding of `Stmt.evalute` at `While`. -/
theorem Stmt.evalute_while (fuel : Nat) (c : Expr) (b : Stmt) (env : Environment) :
    Stmt.evalute (fuel + 1) (.While c b) env =
      match c.evalute env with
      | some (.Boolean true) =>
          (Stmt.evalute fuel b env).bind (fun env1 => Stmt.evalute fuel (.While c b) env1)
      | some (.Boolean false) => some env
      | _ => none := rfl

/-- Under a literal-only environment, one small step on an expression
preserves its big-step value. -/
theorem Expr.reduce_preserves_evalute (e : Expr) (env : Environment) (e1 : Expr)
    (hl : litEnv env = true) (h : e.reduce env = some e1) :
    e.evalute env = e1.evalute env := by
  induction e generalizing e1 with
  | Number n => exact Option.noConfusion h
  | Boolean b => exact Option.noConfusion h
  | Variable name =>
      have h2 : env.lookup name = some e1 := h
      have hlit := litEnv_lookup env name e1 hl h2
      have hv : Expr.evalute (.Variable name) env = env.lookup name := rfl
      rw [hv, h2, Expr.evalute_of_literal e1 env hlit]
  | Add l r ihl ihr =>
      rw [Expr.reduce_add] at h
      cases hlb : l.is_reducible with
      | true =>
          rw [if_pos hlb] at h
          cases hred : l.reduce env with
          | none => rw [hred] at h; exact Option.noConfusion h
          | some l1 =>
              rw [hred] at h
              have h2 : Expr.Add l1 r = e1 := Option.some.inj h
              subst h2
              rw [Expr.evalute_add, Expr.evalute_add, ihl l1 hred]
      | false =>
          rw [if_neg (by simp [hlb])] at h
          cases hrb : r.is_reducible with
          | true =>
              rw [if_pos hrb] at h
              cases hred : r.reduce env with
              | none => rw [hred] at h; exact Option.noConfusion h
              | some r1 =>
                  rw [hred] at h
                  have h2 : Expr.Add l r1 = e1 := Option.some.inj h
                  subst h2
                  rw [Expr.evalute_add, Expr.evalute_add, ihr r1 hred]
          | false =>
              rw [if_neg (by simp [hrb])] at h
              cases l with
              | Number a =>
                  cases r with
                  | Number b =>
                      have h2 : Expr.Number (a + b) = e1 := Option.some.inj h
                      subst h2
                      rfl
                  | Boolean b => exact Option.noConfusion h
                  | Add x y => simp [Expr.is_reducible] at hrb
                  | Multiply x y => simp [Expr.is_reducible] at hrb
                  | LessThan x y => simp [Expr.is_reducible] at hrb
                  | Variable x => simp [Expr.is_reducible] at hrb
              | Boolean a =>
                  cases r with
                  | Number b => exact Option.noConfusion h
                  | Boolean b => exact Option.noConfusion h
                  | Add x y => simp [Expr.is_reducible] at hrb
                  | Multiply x y => simp [Expr.is_reducible] at hrb
                  | LessThan x y => simp [Expr.is_reducible] at hrb
                  | Variable x => simp [Expr.is_reducible] at hrb
              | Add x y => simp [Expr.is_reducible] at hlb
              | Multiply x y => simp [Expr.is_reducible] at hlb
              | LessThan x y => simp [Expr.is_reducible] at hlb
              | Variable x => simp [Expr.is_reducible] at hlb
  | Multiply l r ihl ihr =>
      rw [Expr.reduce_multiply] at h
      cases hlb : l.is_reducible with
      | true =>
          rw [if_pos hlb] at h
          cases hred : l.reduce env with
          | none => rw [hred] at h; exact Option.noConfusion h
          | some l1 =>
              rw [hred] at h
              have h2 : Expr.Multiply l1 r = e1 := Option.some.inj h
              subst h2
              rw [Expr.evalute_multiply, Expr.evalute_multiply, ihl l1 hred]
      | false =>
          rw [if_neg (by simp [hlb])] at h
          cases hrb : r.is_reducible with
          | true =>
              rw [if_pos hrb] at h
              cases hred : r.reduce env with
              | none => rw [hred] at h; exact Option.noConfusion h
              | some r1 =>
                  rw [hred] at h
                  have h2 : Expr.Multiply l r1 = e1 := Option.some.inj h
                  subst h2
                  rw [Expr.evalute_multiply, Expr.evalute_multiply, ihr r1 hred]
          | false =>
              rw [if_neg (by simp [hrb])] at h
              cases l with
              | Number a =>
                  cases r with
                  | Number b =>
                      have h2 : Expr.Number (a * b) = e1 := Option.some.inj h
                      subst h2
                      rfl
                  | Boolean b => exact Option.noConfusion h
                  | Add x y => simp [Expr.is_reducible] at hrb
                  | Multiply x y => simp [Expr.is_reducible] at hrb
                  | LessThan x y => simp [Expr.is_reducible] at hrb
                  | Variable x => simp [Expr.is_reducible] at hrb
              | Boolean a =>
                  cases r with
                  | Number b => exact Option.noConfusion h
                  | Boolean b => exact Option.noConfusion h
                  | Add x y => simp [Expr.is_reducible] at hrb
                  | Multiply x y => simp [Expr.is_reducible] at hrb
                  | LessThan x y => simp [Expr.is_reducible] at hrb
                  | Variable x => simp [Expr.is_reducible] at hrb
              | Add x y => simp [Expr.is_reducible] at hlb
              | Multiply x y => simp [Expr.is_reducible] at hlb
              | LessThan x y => simp [Expr.is_reducible] at hlb
              | Variable x => simp [Expr.is_reducible] at hlb
  | LessThan l r ihl ihr =>
      rw [Expr.reduce_less_than] at h
      cases hlb : l.is_reducible with
      | true =>
          rw [if_pos hlb] at h
          cases hred : l.reduce env with
          | none => rw [hred] at h; exact Option.noConfusion h
          | some l1 =>
              rw [hred] at h
              have h2 : Expr.LessThan l1 r = e1 := Option.some.inj h
              subst h2
              rw [Expr.evalute_less_than, Expr.evalute_less_than, ihl l1 hred]
      | false =>
          rw [if_neg (by simp [hlb])] at h
          cases hrb : r.is_reducible with
          | true =>
              rw [if_pos hrb] at h
              cases hred : r.reduce env with
              | none => rw [hred] at h; exact Option.noConfusion h
              | some r1 =>
                  rw [hred] at h
                  have h2 : Expr.LessThan l r1 = e1 := Option.some.inj h
                  subst h2
                  rw [Expr.evalute_less_than, Expr.evalute_less_than, ihr r1 hred]
          | false =>
              rw [if_neg (by simp [hrb])] at h
              cases l with
              | Number a =>
                  cases r with
                  | Number b =>
                      have h2 : Expr.Boolean (decide (a < b)) = e1 := Option.some.inj h
                      subst h2
                      rfl
                  | Boolean b => exact Option.noConfusion h
                  | Add x y => simp [Expr.is_reducible] at hrb
                  | Multiply x y => simp [Expr.is_reducible] at hrb
                  | LessThan x y => simp [Expr.is_reducible] at hrb
                  | Variable x => simp [Expr.is_reducible] at hrb
              | Boolean a =>
                  cases r with
                  | Number b => exact Option.noConfusion h
                  | Boolean b => exact Option.noConfusion h
                  | Add x y => simp [Expr.is_reducible] at hrb
                  | Multiply x y => simp [Expr.is_reducible] at hrb
                  | LessThan x y => simp [Expr.is_reducible] at hrb
                  | Variable x => simp [Expr.is_reducible] at hrb
              | Add x y => simp [Expr.is_reducible] at hlb
              | Multiply x y => simp [Expr.is_reducible] at hlb
              | LessThan x y => simp [Expr.is_reducible] at hlb
              | Variable x => simp [Expr.is_reducible] at hlb

/-- Adding one unit of fuel preserves a successful big-step run. -/
theorem Stmt.evalute_succ (fuel : Nat) (s : Stmt) (env E : Environment)
    (h : Stmt.evalute fuel s env = some E) :
    Stmt.evalute (fuel + 1) s env = some E := by
  induction fuel generalizing s env E with
  | zero => exact Option.noConfusion h
  | succ fuel ih =>
      cases s with
      | DoNothing => exact h
      | Assign name expr => exact h
      | If c t e =>
          rw [Stmt.evalute_if] at h
          rw [Stmt.evalute_if]
          cases hc : c.evalute env with
          | none => rw [hc] at h; exact Option.noConfusion h
          | some v =>
              rw [hc] at h
              cases v with
              | Boolean bv =>
                  cases bv with
                  | true =>
                      have h2 : Stmt.evalute fuel t env = some E := h
                      exact ih t env E h2
                  | false =>
                      have h2 : Stmt.evalute fuel e env = some E := h
                      exact ih e env E h2
              | Number n => exact Option.noConfusion h
              | Add x y => exact Option.noConfusion h
              | Multiply x y => exact Option.noConfusion h
              | LessThan x y => exact Option.noConfusion h
              | Variable x => exact Option.noConfusion h
      | Sequence f s2 =>
          rw [Stmt.evalute_seq] at h
          rw [Stmt.evalute_seq]
          cases hf : Stmt.evalute fuel f env with
          | none => rw [hf] at h; exact Option.noConfusion h
          | some E1 =>
              rw [hf] at h
              have h2 : Stmt.evalute fuel s2 E1 = some E := h
              rw [ih f env E1 hf]
              exact ih s2 E1 E h2
      | While c b =>
          rw [Stmt.evalute_while] at h
          rw [Stmt.evalute_while]
          cases hc : c.evalute env with
          | none => rw [hc] at h; exact Option.noConfusion h
          | some v =>
              rw [hc] at h
              cases v with
              | Boolean bv =>
                  cases bv with
                  | true =>
                      have h2 : (Stmt.evalute fuel b env).bind
                          (fun env1 => Stmt.evalute fuel (.While c b) env1) = some E := h
                      cases hb : Stmt.evalute fuel b env with
                      | none => rw [hb] at h2; exact Option.noConfusion h2
                      | some E1 =>
                          rw [hb] at h2
                          have h3 : Stmt.evalute fuel (.While c b) E1 = some E := h2
                          show (Stmt.evalute (fuel + 1) b env).bind
                              (fun env1 => Stmt.evalute (fuel + 1) (.While c b) env1) = some E
                          rw [ih b env E1 hb]
                          exact ih (.While c b) E1 E h3
                  | false => exact h
              | Number n => exact Option.noConfusion h
              | Add x y => exact Option.noConfusion h
              | Multiply x y => exact Option.noConfusion h
              | LessThan x y => exact Option.noConfusion h
              | Variable x => exact Option.noConfusion h

/-- Fuel monotonicity of the big-step evaluator: a successful run stays
successful, with the same result, at any larger fuel. -/
theorem Stmt.evalute_mono (fuel fuel' : Nat) (s : Stmt) (env E : Environment)
    (hle : fuel ≤ fuel') (h : Stmt.evalute fuel s env = some E) :
    Stmt.evalute fuel' s env = some E := by
  induction fuel' with
  | zero =>
      have h0 : fuel = 0 := Nat.le_zero.mp hle
      exact h0 ▸ h
  | succ f ih =>
      rcases Nat.eq_or_lt_of_le hle with heq | hlt
      · exact heq ▸ h
      · exact Stmt.evalute_succ f s env E (ih (Nat.lt_succ_iff.mp hlt))

/-- Unfolding of `Stmt.reduce` at `Assign`. -/
theorem Stmt.reduce_assign (name : String) (expr : Expr) (env : Environment) :
    Stmt.reduce (.Assign name expr) env =
      if expr.is_reducible then (expr.reduce env).map (fun x => (.Assign name x, env))
      else some (.DoNothing, env.insert name expr) := rfl

/-- Unfolding of `Stmt.reduce` at `If`. -/
theorem Stmt.reduce_if (c : Expr) (t e : Stmt) (env : Environment) :
    Stmt.reduce (.If c t e) env =
      if c.is_reducible then (c.reduce env).map (fun x => (.If x t e, env))
      else match c with
        | .Boolean true => some (t, env)
        | .Boolean false => some (e, env)
        | _ => none := rfl

/-- Unfolding of `Stmt.reduce` at a `Sequence` whose first part finished. -/
theorem Stmt.reduce_seq_donothing (s2 : Stmt) (env : Environment) :
    Stmt.reduce (.Sequence .DoNothing s2) env = some (s2, env) := rfl

/-- Unfolding of `Stmt.reduce` at a `Sequence` whose first part still runs. -/
theorem Stmt.reduce_seq (f s2 : Stmt) (env : Environment) (hf : f ≠ .DoNothing) :
    Stmt.reduce (.Sequence f s2) env =
      (f.reduce env).map (fun p => (.Sequence p.1 s2, p.2)) := by
  cases f with
  | DoNothing => exact absurd rfl hf
  | Assign n e => rfl
  | If c t e => rfl
  | Sequence a b => rfl
  | While c b => rfl

/-- Unfolding of `Stmt.reduce` at `While`. -/
theorem Stmt.reduce_while_eq (c : Expr) (b : Stmt) (env : Environment) :
    Stmt.reduce (.While c b) env =
      some (.If c (.Sequence b (.While c b)) .DoNothing, env) := rfl

/-- Unfolding of `Machine.steps` at a successor step count. -/
theorem Machine.steps_succ (n : Nat) (s : Stmt) (env : Environment) :
    Machine.steps (n + 1) s env =
      match s.reduce env with
      | some (s1, env1) => Machine.steps n s1 env1
      | none => none := rfl

/-- A small step on a statement keeps a literal-only environment
literal-only: the only insertion performed by `Stmt.reduce` is of a
non-reducible, hence literal, expression. -/
theorem Stmt.reduce_preserves_litEnv (s : Stmt) (env : Environment) (s1 : Stmt)
    (env1 : Environment) (hl : litEnv env = true)
    (h : s.reduce env = some (s1, env1)) : litEnv env1 = true := by
  induction s generalizing s1 env1 with
  | DoNothing => exact Option.noConfusion h
  | Assign name expr =>
      rw [Stmt.reduce_assign] at h
      cases hred : expr.is_reducible with
      | true =>
          rw [if_pos hred] at h
          cases hr : expr.reduce env with
          | none => rw [hr] at h; exact Option.noConfusion h
          | some x =>
              rw [hr] at h
              have h2 : (Stmt.Assign name x, env) = (s1, env1) := Option.some.inj h
              have henv : env = env1 := congrArg Prod.snd h2
              exact henv ▸ hl
      | false =>
          rw [if_neg (by simp [hred])] at h
          have h2 : (Stmt.DoNothing, env.insert name expr) = (s1, env1) := Option.some.inj h
          have henv : env.insert name expr = env1 := congrArg Prod.snd h2
          have hlit : expr.isLiteral = true := (Expr.not_reducible_iff expr).mp hred
          exact henv ▸ litEnv_insert env name expr hl hlit
  | If c t e iht ihe =>
      rw [Stmt.reduce_if] at h
      cases hcred : c.is_reducible with
      | true =>
          rw [if_pos hcred] at h
          cases hr : c.reduce env with
          | none => rw [hr] at h; exact Option.noConfusion h
          | some x =>
              rw [hr] at h
              have h2 : (Stmt.If x t e, env) = (s1, env1) := Option.some.inj h
              have henv : env = env1 := congrArg Prod.snd h2
              exact henv ▸ hl
      | false =>
          rw [if_neg (by simp [hcred])] at h
          cases c with
          | Boolean bv =>
              cases bv with
              | true =>
                  have h2 : (t, env) = (s1, env1) := Option.some.inj h
                  have henv : env = env1 := congrArg Prod.snd h2
                  exact henv ▸ hl
              | false =>
                  have h2 : (e, env) = (s1, env1) := Option.some.inj h
                  have henv : env = env1 := congrArg Prod.snd h2
                  exact henv ▸ hl
          | Number n => exact Option.noConfusion h
          | Add x y => simp [Expr.is_reducible] at hcred
          | Multiply x y => simp [Expr.is_reducible] at hcred
          | LessThan x y => simp [Expr.is_reducible] at hcred
          | Variable x => simp [Expr.is_reducible] at hcred
  | Sequence f s2 ihf ihs =>
      by_cases hf : f = .DoNothing
      · subst hf
        rw [Stmt.reduce_seq_donothing] at h
        have h2 : (s2, env) = (s1, env1) := Option.some.inj h
        have henv : env = env1 := congrArg Prod.snd h2
        exact henv ▸ hl
      · rw [Stmt.reduce_seq f s2 env hf] at h
        cases hr : f.reduce env with
        | none => rw [hr] at h; exact Option.noConfusion h
        | some p =>
            rw [hr] at h
            obtain ⟨f1, env2⟩ := p
            have h2 : (Stmt.Sequence f1 s2, env2) = (s1, env1) := Option.some.inj h
            have henv : env2 = env1 := congrArg Prod.snd h2
            exact henv ▸ ihf f1 env2 hr
  | While c b ihb =>
      rw [Stmt.reduce_while_eq] at h
      have h2 : (Stmt.If c (.Sequence b (.While c b)) .DoNothing, env) = (s1, env1) :=
        Option.some.inj h
      have henv : env = env1 := congrArg Prod.snd h2
      exact henv ▸ hl

/-- Any number of machine steps keeps a literal-only environment
literal-only. -/
theorem Machine.steps_preserves_litEnv (n : Nat) (s : Stmt) (env : Environment)
    (s1 : Stmt) (env1 : Environment) (hl : litEnv env = true)
    (h : Machine.steps n s env = some (s1, env1)) : litEnv env1 = true := by
  induction n generalizing s env with
  | zero =>
      have h2 : (s, env) = (s1, env1) := Option.some.inj h
      have henv : env = env1 := congrArg Prod.snd h2
      exact henv ▸ hl
  | succ n ih =>
      rw [Machine.steps_succ] at h
      cases hred : s.reduce env with
      | none => rw [hred] at h; exact Option.noConfusion h
      | some p =>
          rw [hred] at h
          obtain ⟨s2, env2⟩ := p
          exact ih s2 env2 (Stmt.reduce_preserves_litEnv s env s2 env2 hl hred) h

/-- Big-step statement evaluation keeps a literal-only environment
literal-only: every value it inserts is a big-step expression result,
which is a literal under a literal-only environment. -/
theorem Stmt.evalute_preserves_litEnv (fuel : Nat) (s : Stmt) (env E : Environment)
    (hl : litEnv env = true) (h : Stmt.evalute fuel s env = some E) :
    litEnv E = true := by
  induction fuel generalizing s env E with
  | zero => exact Option.noConfusion h
  | succ fuel ih =>
      cases s with
      | DoNothing =>
          have h2 : env = E := Option.some.inj h
          exact h2 ▸ hl
      | Assign name expr =>
          have h2 : (expr.evalute env).map (fun v => env.insert name v) = some E := h
          cases hv : expr.evalute env with
          | none => rw [hv] at h2; exact Option.noConfusion h2
          | some v =>
              rw [hv] at h2
              have h3 : env.insert name v = E := Option.some.inj h2
              have hlit := Expr.evalute_literal_result expr env v hl hv
              exact h3 ▸ litEnv_insert env name v hl hlit
      | If c t e =>
          rw [Stmt.evalute_if] at h
          cases hc : c.evalute env with
          | none => rw [hc] at h; exact Option.noConfusion h
          | some v =>
              rw [hc] at h
              cases v with
              | Boolean bv =>
                  cases bv with
                  | true => exact ih t env E hl h
                  | false => exact ih e env E hl h
              | Number n => exact Option.noConfusion h
              | Add x y => exact Option.noConfusion h
              | Multiply x y => exact Option.noConfusion h
              | LessThan x y => exact Option.noConfusion h
              | Variable x => exact Option.noConfusion h
      | Sequence f s2 =>
          rw [Stmt.evalute_seq] at h
          cases hf : Stmt.evalute fuel f env with
          | none => rw [hf] at h; exact Option.noConfusion h
          | some E1 =>
              rw [hf] at h
              have h2 : Stmt.evalute fuel s2 E1 = some E := h
              exact ih s2 E1 E (ih f env E1 hl hf) h2
      | While c b =>
          rw [Stmt.evalute_while] at h
          cases hc : c.evalute env with
          | none => rw [hc] at h; exact Option.noConfusion h
          | some v =>
              rw [hc] at h
              cases v with
              | Boolean bv =>
                  cases bv with
                  | true =>
                      have h2 : (Stmt.evalute fuel b env).bind
                          (fun env1 => Stmt.evalute fuel (.While c b) env1) = some E := h
                      cases hb : Stmt.evalute fuel b env with
                      | none => rw [hb] at h2; exact Option.noConfusion h2
                      | some E1 =>
                          rw [hb] at h2
                          have h3 : Stmt.evalute fuel (.While c b) E1 = some E := h2
                          exact ih (.While c b) E1 E (ih b env E1 hl hb) h3
                  | false =>
                      have h2 : env = E := Option.some.inj h
                      exact h2 ▸ hl
              | Number n => exact Option.noConfusion h
              | Add x y => exact Option.noConfusion h
              | Multiply x y => exact Option.noConfusion h
              | LessThan x y => exact Option.noConfusion h
              | Variable x => exact Option.noConfusion h

/-- One small step simulates into the big-step evaluator: under a
literal-only environment, if `s` reduces to `(s1, env1)` and `s1` big-step
evaluates to `E`, then `s` big-step evaluates to `E` with one more unit of
fuel. -/
theorem Stmt.step_preserves_evalute (s : Stmt) (env : Environment) (s1 : Stmt)
    (env1 : Environment) (fuel : Nat) (E : Environment)
    (hl : litEnv env = true) (hred : s.reduce env = some (s1, env1))
    (h : Stmt.evalute fuel s1 env1 = some E) :
    Stmt.evalute (fuel + 1) s env = some E := by
  induction s generalizing s1 env1 fuel E with
  | DoNothing => exact Option.noConfusion hred
  | Assign name expr =>
      rw [Stmt.reduce_assign] at hred
      cases hexp : expr.is_reducible with
      | true =>
          rw [if_pos hexp] at hred
          cases hr : expr.reduce env with
          | none => rw [hr] at hred; exact Option.noConfusion hred
          | some x =>
              rw [hr] at hred
              have h2 : (Stmt.Assign name x, env) = (s1, env1) := Option.some.inj hred
              injection h2 with hs henv
              subst hs; subst henv
              cases fuel with
              | zero => exact Option.noConfusion h
              | succ g =>
                  have h3 : (x.evalute env).map (fun v => env.insert name v) = some E := h
                  have hee : expr.evalute env = x.evalute env :=
                    Expr.reduce_preserves_evalute expr env x hl hr
                  show (expr.evalute env).map (fun v => env.insert name v) = some E
                  rw [hee]
                  exact h3
      | false =>
          rw [if_neg (by simp [hexp])] at hred
          have h2 : (Stmt.DoNothing, env.insert name expr) = (s1, env1) :=
            Option.some.inj hred
          injection h2 with hs henv
          subst hs; subst henv
          cases fuel with
          | zero => exact Option.noConfusion h
          | succ g =>
              have h3 : env.insert name expr = E := Option.some.inj h
              have hlit : expr.isLiteral = true := (Expr.not_reducible_iff expr).mp hexp
              show (expr.evalute env).map (fun v => env.insert name v) = some E
              rw [Expr.evalute_of_literal expr env hlit, Option.map_some']
              exact congrArg some h3
  | If c t e iht ihe =>
      rw [Stmt.reduce_if] at hred
      cases hcred : c.is_reducible with
      | true =>
          rw [if_pos hcred] at hred
          cases hr : c.reduce env with
          | none => rw [hr] at hred; exact Option.noConfusion hred
          | some c1 =>
              rw [hr] at hred
              have h2 : (Stmt.If c1 t e, env) = (s1, env1) := Option.some.inj hred
              injection h2 with hs henv
              subst hs; subst henv
              cases fuel with
              | zero => exact Option.noConfusion h
              | succ g =>
                  rw [Stmt.evalute_if] at h
                  have hce : c.evalute env = c1.evalute env :=
                    Expr.reduce_preserves_evalute c env c1 hl hr
                  rw [Stmt.evalute_if, hce]
                  cases hc1 : c1.evalute env with
                  | none => rw [hc1] at h; exact Option.noConfusion h
                  | some v =>
                      rw [hc1] at h
                      cases v with
                      | Boolean bv =>
                          cases bv with
                          | true =>
                              have h3 : Stmt.evalute g t env = some E := h
                              exact Stmt.evalute_succ g t env E h3
                          | false =>
                              have h3 : Stmt.evalute g e env = some E := h
                              exact Stmt.evalute_succ g e env E h3
                      | Number n => exact Option.noConfusion h
                      | Add x y => exact Option.noConfusion h
                      | Multiply x y => exact Option.noConfusion h
                      | LessThan x y => exact Option.noConfusion h
                      | Variable x => exact Option.noConfusion h
      | false =>
          rw [if_neg (by simp [hcred])] at hred
          cases c with
          | Boolean bv =>
              cases bv with
              | true =>
                  have h2 : (t, env) = (s1, env1) := Option.some.inj hred
                  injection h2 with hs henv
                  subst hs; subst henv
                  exact h
              | false =>
                  have h2 : (e, env) = (s1, env1) := Option.some.inj hred
                  injection h2 with hs henv
                  subst hs; subst henv
                  exact h
          | Number n => exact Option.noConfusion hred
          | Add x y => simp [Expr.is_reducible] at hcred
          | Multiply x y => simp [Expr.is_reducible] at hcred
          | LessThan x y => simp [Expr.is_reducible] at hcred
          | Variable x => simp [Expr.is_reducible] at hcred
  | Sequence f s2 ihf ihs =>
      by_cases hf : f = .DoNothing
      · subst hf
        rw [Stmt.reduce_seq_donothing] at hred
        have h2 : (s2, env) = (s1, env1) := Option.some.inj hred
        injection h2 with hs henv
        subst hs; subst henv
        cases fuel with
        | zero => exact Option.noConfusion h
        | succ g => exact h
      · rw [Stmt.reduce_seq f s2 env hf] at hred
        cases hr : f.reduce env with
        | none => rw [hr] at hred; exact Option.noConfusion hred
        | some p =>
            rw [hr] at hred
            obtain ⟨f1, env2⟩ := p
            have h2 : (Stmt.Sequence f1 s2, env2) = (s1, env1) := Option.some.inj hred
            injection h2 with hs henv
            subst hs; subst henv
            cases fuel with
            | zero => exact Option.noConfusion h
            | succ g =>
                have h3 : (Stmt.evalute g f1 env2).bind
                    (fun env1 => Stmt.evalute g s2 env1) = some E := h
                cases hf1 : Stmt.evalute g f1 env2 with
                | none => rw [hf1] at h3; exact Option.noConfusion h3
                | some E1 =>
                    rw [hf1] at h3
                    have h4 : Stmt.evalute g s2 E1 = some E := h3
                    have h5 := ihf f1 env2 g E1 hr hf1
                    have h6 := Stmt.evalute_succ g s2 E1 E h4
                    show (Stmt.evalute (g + 1) f env).bind
                        (fun env1 => Stmt.evalute (g + 1) s2 env1) = some E
                    rw [h5]
                    exact h6
  | While c b ihb =>
      rw [Stmt.reduce_while_eq] at hred
      have h2 : (Stmt.If c (.Sequence b (.While c b)) .DoNothing, env) = (s1, env1) :=
        Option.some.inj hred
      injection h2 with hs henv
      subst hs; subst henv
      cases fuel with
      | zero => exact Option.noConfusion h
      | succ g =>
          rw [Stmt.evalute_if] at h
          cases hc : c.evalute env with
          | none => rw [hc] at h; exact Option.noConfusion h
          | some v =>
              rw [hc] at h
              cases v with
              | Boolean bv =>
                  cases bv with
                  | true =>
                      have h3 : Stmt.evalute g (.Sequence b (.While c b)) env = some E := h
                      cases g with
                      | zero => exact Option.noConfusion h3
                      | succ k =>
                          have h4 : (Stmt.evalute k b env).bind
                              (fun env1 => Stmt.evalute k (.While c b) env1) = some E := h3
                          cases hb : Stmt.evalute k b env with
                          | none => rw [hb] at h4; exact Option.noConfusion h4
                          | some E1 =>
                              rw [hb] at h4
                              have h5 : Stmt.evalute k (.While c b) E1 = some E := h4
                              have hb2 := Stmt.evalute_succ k b env E1 hb
                              have hb3 := Stmt.evalute_succ (k + 1) b env E1 hb2
                              have h52 := Stmt.evalute_succ k (.While c b) E1 E h5
                              have h53 := Stmt.evalute_succ (k + 1) (.While c b) E1 E h52
                              rw [Stmt.evalute_while, hc]
                              show (Stmt.evalute (k + 2) b env).bind
                                  (fun env1 => Stmt.evalute (k + 2) (.While c b) env1) = some E
                              rw [hb3]
                              exact h53
                  | false =>
                      have h3 : Stmt.evalute g .DoNothing env = some E := h
                      cases g with
                      | zero => exact Option.noConfusion h3
                      | succ k =>
                          have h4 : env = E := Option.some.inj h3
                          rw [Stmt.evalute_while, hc]
                          exact congrArg some h4
              | Number n => exact Option.noConfusion h
              | Add x y => exact Option.noConfusion h
              | Multiply x y => exact Option.noConfusion h
              | LessThan x y => exact Option.noConfusion h
              | Variable x => exact Option.noConfusion h

/-- C1 (amended): for a literal-only initial environment, if the small-step
Machine driven from `(s, env)` reaches `DoNothing` in `n` steps with
terminal environment `E`, then big-step `Stmt::evalute` succeeds (for some,
hence by monotonicity all larger, fuel) and returns exactly `E`. -/
theorem machine_big_step_agreement (n : Nat) (s : Stmt) (env E : Environment)
    (hl : litEnv env = true)
    (h : Machine.steps n s env = some (.DoNothing, E)) :
    ∃ fuel, Stmt.evalute fuel s env = some E := by
  induction n generalizing s env with
  | zero =>
      have h2 : (s, env) = (Stmt.DoNothing, E) := Option.some.inj h
      injection h2 with hs henv
      subst hs; subst henv
      exact ⟨1, rfl⟩
  | succ n ih =>
      rw [Machine.steps_succ] at h
      cases hred : s.reduce env with
      | none => rw [hred] at h; exact Option.noConfusion h
      | some p =>
          rw [hred] at h
          obtain ⟨s1, env1⟩ := p
          have hl1 := Stmt.reduce_preserves_litEnv s env s1 env1 hl hred
          obtain ⟨fuel, hf⟩ := ih s1 env1 hl1 h
          exact ⟨fuel + 1, Stmt.step_preserves_evalute s env s1 env1 fuel E hl hred hf⟩

/-- C1 witness: the agreement theorem applied to `x = 1` from the empty
(trivially literal-only) environment, which the machine finishes in one
step. -/
theorem machine_big_step_agreement_witness :
    litEnv ([] : Environment) = true ∧
    Machine.steps 1 (.Assign "x" (.Number 1)) [] = some (.DoNothing, [("x", .Number 1)]) ∧
    ∃ fuel, Stmt.evalute fuel (.Assign "x" (.Number 1)) [] = some [("x", .Number 1)] :=
  ⟨rfl, by decide,
   machine_big_step_agreement 1 (.Assign "x" (.Number 1)) [] [("x", .Number 1)] rfl
     (by decide)⟩

/-- C1 counterexample: with the non-literal binding `x ↦ 1 + 1`, the machine
driven on `y = x` terminates with `y ↦ 2`, while big-step evaluation
returns `y ↦ 1 + 1` (the `Variable` clause of `evalute` returns the bound
expression verbatim), so the two terminal environments differ at `y`. -/
theorem agreement_fails_on_nonliteral_binding :
    Machine.steps 3 (.Assign "y" (.Variable "x")) [("x", .Add (.Number 1) (.Number 1))] =
      some (.DoNothing, [("x", .Add (.Number 1) (.Number 1)), ("y", .Number 2)]) ∧
    Stmt.evalute 2 (.Assign "y" (.Variable "x")) [("x", .Add (.Number 1) (.Number 1))] =
      some [("x", .Add (.Number 1) (.Number 1)), ("y", .Add (.Number 1) (.Number 1))] ∧
    Environment.lookup [("x", .Add (.Number 1) (.Number 1)), ("y", .Number 2)] "y" =
      some (.Number 2) ∧
    Environment.lookup
        [("x", .Add (.Number 1) (.Number 1)), ("y", .Add (.Number 1) (.Number 1))] "y" =
      some (.Add (.Number 1) (.Number 1)) :=
  ⟨by decide, by decide, by decide, by decide⟩

/-- C2: one small step on `While cond body` returns exactly
`If cond (Sequence body (While cond body)) DoNothing` with the environment
unchanged, for every condition, body and environment — so the step itself
performs no condition test and no body execution. -/
theorem while_reduce_unfolds (c : Expr) (b : Stmt) (env : Environment) :
    Stmt.reduce (.While c b) env =
      some (.If c (.Sequence b (.While c b)) .DoNothing, env) := rfl

/-- C3 counterexample: `Add(Boolean true, Number 1)` has two non-reducible
operands, yet `reduce` does not collapse it to a literal — it fails
(`panic!("invalid expr")`). -/
theorem reduce_stuck_on_mismatched_literals :
    Expr.is_reducible (.Boolean true) = false ∧
    Expr.is_reducible (.Number 1) = false ∧
    Expr.reduce (.Add (.Boolean true) (.Number 1)) [] = none := ⟨rfl, rfl, rfl⟩

/-- C3 (amended): `Add`/`Multiply`/`LessThan` reduce in leftmost-innermost
order — the left operand alone if it is reducible, else the right operand
alone if it is reducible; otherwise both operands are literals, and the
node collapses to a single literal exactly when both are `Number`s,
failing (`invalid expr`) otherwise. -/
theorem binop_leftmost_innermost (l r : Expr) (env : Environment) :
    ((l.is_reducible = true →
        Expr.reduce (.Add l r) env = (l.reduce env).map (fun x => .Add x r)) ∧
     (l.is_reducible = false → r.is_reducible = true →
        Expr.reduce (.Add l r) env = (r.reduce env).map (fun x => .Add l x)) ∧
     (l.is_reducible = false → r.is_reducible = false →
        l.isLiteral = true ∧ r.isLiteral = true ∧
        ((∃ a b, l = .Number a ∧ r = .Number b ∧
            Expr.reduce (.Add l r) env = some (.Number (a + b))) ∨
          ((∀ a b, ¬(l = .Number a ∧ r = .Number b)) ∧
            Expr.reduce (.Add l r) env = none)))) ∧
    ((l.is_reducible = true →
        Expr.reduce (.Multiply l r) env = (l.reduce env).map (fun x => .Multiply x r)) ∧
     (l.is_reducible = false → r.is_reducible = true →
        Expr.reduce (.Multiply l r) env = (r.reduce env).map (fun x => .Multiply l x)) ∧
     (l.is_reducible = false → r.is_reducible = false →
        l.isLiteral = true ∧ r.isLiteral = true ∧
        ((∃ a b, l = .Number a ∧ r = .Number b ∧
            Expr.reduce (.Multiply l r) env = some (.Number (a * b))) ∨
          ((∀ a b, ¬(l = .Number a ∧ r = .Number b)) ∧
            Expr.reduce (.Multiply l r) env = none)))) ∧
    ((l.is_reducible = true →
        Expr.reduce (.LessThan l r) env = (l.reduce env).map (fun x => .LessThan x r)) ∧
     (l.is_reducible = false → r.is_reducible = true →
        Expr.reduce (.LessThan l r) env = (r.reduce env).map (fun x => .LessThan l x)) ∧
     (l.is_reducible = false → r.is_reducible = false →
        l.isLiteral = true ∧ r.isLiteral = true ∧
        ((∃ a b, l = .Number a ∧ r = .Number b ∧
            Expr.reduce (.LessThan l r) env = some (.Boolean (decide (a < b)))) ∨
          ((∀ a b, ¬(l = .Number a ∧ r = .Number b)) ∧
            Expr.reduce (.LessThan l r) env = none)))) := by
  refine ⟨⟨?_, ?_, ?_⟩, ⟨?_, ?_, ?_⟩, ⟨?_, ?_, ?_⟩⟩
  · intro h1; rw [Expr.reduce_add, if_pos h1]
  · intro h1 h2; rw [Expr.reduce_add, if_neg (by simp [h1]), if_pos h2]
  · intro h1 h2
    refine ⟨(Expr.not_reducible_iff l).mp h1, (Expr.not_reducible_iff r).mp h2, ?_⟩
    cases l with
    | Number a =>
        cases r with
        | Number b => exact Or.inl ⟨a, b, rfl, rfl, rfl⟩
        | Boolean b => exact Or.inr ⟨fun a' b' hab => Expr.noConfusion hab.2, rfl⟩
        | Add x y => simp [Expr.is_reducible] at h2
        | Multiply x y => simp [Expr.is_reducible] at h2
        | LessThan x y => simp [Expr.is_reducible] at h2
        | Variable x => simp [Expr.is_reducible] at h2
    | Boolean a =>
        cases r with
        | Number b => exact Or.inr ⟨fun a' b' hab => Expr.noConfusion hab.1, rfl⟩
        | Boolean b => exact Or.inr ⟨fun a' b' hab => Expr.noConfusion hab.1, rfl⟩
        | Add x y => simp [Expr.is_reducible] at h2
        | Multiply x y => simp [Expr.is_reducible] at h2
        | LessThan x y => simp [Expr.is_reducible] at h2
        | Variable x => simp [Expr.is_reducible] at h2
    | Add x y => simp [Expr.is_reducible] at h1
    | Multiply x y => simp [Expr.is_reducible] at h1
    | LessThan x y => simp [Expr.is_reducible] at h1
    | Variable x => simp [Expr.is_reducible] at h1
  · intro h1; rw [Expr.reduce_multiply, if_pos h1]
  · intro h1 h2; rw [Expr.reduce_multiply, if_neg (by simp [h1]), if_pos h2]
  · intro h1 h2
    refine ⟨(Expr.not_reducible_iff l).mp h1, (Expr.not_reducible_iff r).mp h2, ?_⟩
    cases l with
    | Number a =>
        cases r with
        | Number b => exact Or.inl ⟨a, b, rfl, rfl, rfl⟩
        | Boolean b => exact Or.inr ⟨fun a' b' hab => Expr.noConfusion hab.2, rfl⟩
        | Add x y => simp [Expr.is_reducible] at h2
        | Multiply x y => simp [Expr.is_reducible] at h2
        | LessThan x y => simp [Expr.is_reducible] at h2
        | Variable x => simp [Expr.is_reducible] at h2
    | Boolean a =>
        cases r with
        | Number b => exact Or.inr ⟨fun a' b' hab => Expr.noConfusion hab.1, rfl⟩
        | Boolean b => exact Or.inr ⟨fun a' b' hab => Expr.noConfusion hab.1, rfl⟩
        | Add x y => simp [Expr.is_reducible] at h2
        | Multiply x y => simp [Expr.is_reducible] at h2
        | LessThan x y => simp [Expr.is_reducible] at h2
        | Variable x => simp [Expr.is_reducible] at h2
    | Add x y => simp [Expr.is_reducible] at h1
    | Multiply x y => simp [Expr.is_reducible] at h1
    | LessThan x y => simp [Expr.is_reducible] at h1
    | Variable x => simp [Expr.is_reducible] at h1
  · intro h1; rw [Expr.reduce_less_than, if_pos h1]
  · intro h1 h2; rw [Expr.reduce_less_than, if_neg (by simp [h1]), if_pos h2]
  · intro h1 h2
    refine ⟨(Expr.not_reducible_iff l).mp h1, (Expr.not_reducible_iff r).mp h2, ?_⟩
    cases l with
    | Number a =>
        cases r with
        | Number b => exact Or.inl ⟨a, b, rfl, rfl, rfl⟩
        | Boolean b => exact Or.inr ⟨fun a' b' hab => Expr.noConfusion hab.2, rfl⟩
        | Add x y => simp [Expr.is_reducible] at h2
        | Multiply x y => simp [Expr.is_reducible] at h2
        | LessThan x y => simp [Expr.is_reducible] at h2
        | Variable x => simp [Expr.is_reducible] at h2
    | Boolean a =>
        cases r with
        | Number b => exact Or.inr ⟨fun a' b' hab => Expr.noConfusion hab.1, rfl⟩
        | Boolean b => exact Or.inr ⟨fun a' b' hab => Expr.noConfusion hab.1, rfl⟩
        | Add x y => simp [Expr.is_reducible] at h2
        | Multiply x y => simp [Expr.is_reducible] at h2
        | LessThan x y => simp [Expr.is_reducible] at h2
        | Variable x => simp [Expr.is_reducible] at h2
    | Add x y => simp [Expr.is_reducible] at h1
    | Multiply x y => simp [Expr.is_reducible] at h1
    | LessThan x y => simp [Expr.is_reducible] at h1
    | Variable x => simp [Expr.is_reducible] at h1

/-- C3 witness: the left-operand clause applied at a concrete reducible
left operand, and the both-irreducible clause applied at `2 + 3`, where
only the collapse disjunct can hold. -/
theorem binop_leftmost_innermost_witness :
    (Expr.is_reducible (.Add (.Number 1) (.Number 2)) = true ∧
      Expr.reduce (.Add (.Add (.Number 1) (.Number 2)) (.Number 5)) [] =
        (Expr.reduce (.Add (.Number 1) (.Number 2)) []).map (fun x => .Add x (.Number 5))) ∧
    (Expr.is_reducible (.Number 2) = false ∧
      (Expr.Number 2).isLiteral = true ∧ (Expr.Number 3).isLiteral = true ∧
      ((∃ a b, Expr.Number 2 = Expr.Number a ∧ Expr.Number 3 = Expr.Number b ∧
          Expr.reduce (.Add (.Number 2) (.Number 3)) [] = some (.Number (a + b))) ∨
        ((∀ a b, ¬(Expr.Number 2 = Expr.Number a ∧ Expr.Number 3 = Expr.Number b)) ∧
          Expr.reduce (.Add (.Number 2) (.Number 3)) [] = none))) :=
  ⟨⟨rfl, (binop_leftmost_innermost (.Add (.Number 1) (.Number 2)) (.Number 5) []).1.1 rfl⟩,
   rfl, (binop_leftmost_innermost (.Number 2) (.Number 3) []).1.2.2 rfl rfl⟩

/-- C4 counterexample: big-step evaluation of `Variable "x"` against an
environment binding `x` to the non-literal `1 + 1` succeeds and returns
that `Add` node verbatim — a partially-reduced tree. -/
theorem evalute_returns_nonliteral :
    Expr.evalute (.Variable "x") [("x", .Add (.Number 1) (.Number 1))] =
      some (.Add (.Number 1) (.Number 1)) ∧
    Expr.isLiteral (.Add (.Number 1) (.Number 1)) = false := ⟨rfl, rfl⟩

/-- C4 (amended): under a literal-only environment, a successful big-step
expression evaluation returns a `Number` or `Boolean` literal — never an
`Add`, `Multiply`, `LessThan` or `Variable` node. -/
theorem evalute_returns_literal (e : Expr) (env : Environment) (v : Expr)
    (hl : litEnv env = true) (h : e.evalute env = some v) :
    (∃ n, v = .Number n) ∨ (∃ b, v = .Boolean b) := by
  have hlit := Expr.evalute_literal_result e env v hl h
  cases v with
  | Number n => exact Or.inl ⟨n, rfl⟩
  | Boolean b => exact Or.inr ⟨b, rfl⟩
  | Add x y => simp [Expr.isLiteral] at hlit
  | Multiply x y => simp [Expr.isLiteral] at hlit
  | LessThan x y => simp [Expr.isLiteral] at hlit
  | Variable x => simp [Expr.isLiteral] at hlit

/-- C4 witness: the amended theorem applied to `1 + 2` in the empty
environment, whose big-step value is the literal `Number 3`. -/
theorem evalute_returns_literal_witness :
    litEnv ([] : Environment) = true ∧
    ((∃ n, Expr.Number 3 = Expr.Number n) ∨ (∃ b, Expr.Number 3 = Expr.Boolean b)) :=
  ⟨rfl, evalute_returns_literal (.Add (.Number 1) (.Number 2)) [] (.Number 3) rfl (by decide)⟩

/-- C5: on two `Number` literals, `Add` collapses to their integer sum,
`Multiply` always collapses to their integer product (never via `Add`'s
rule) and `LessThan` to the signed comparison — in both the small-step
`reduce` and the big-step `evalute`. -/
theorem number_literals_collapse (a b : Int) (env : Environment) :
    Expr.reduce (.Add (.Number a) (.Number b)) env = some (.Number (a + b)) ∧
    Expr.reduce (.Multiply (.Number a) (.Number b)) env = some (.Number (a * b)) ∧
    Expr.reduce (.LessThan (.Number a) (.Number b)) env = some (.Boolean (decide (a < b))) ∧
    Expr.evalute (.Add (.Number a) (.Number b)) env = some (.Number (a + b)) ∧
    Expr.evalute (.Multiply (.Number a) (.Number b)) env = some (.Number (a * b)) ∧
    Expr.evalute (.LessThan (.Number a) (.Number b)) env = some (.Boolean (decide (a < b))) :=
  ⟨rfl, rfl, rfl, rfl, rfl, rfl⟩

/-- C6: reaching `DoNothing` from `While cond body` takes exactly one step
(the unfold) more than reaching it from
`If cond (Sequence body (While cond body)) DoNothing`: after one step the
machine states coincide, and at zero steps the `While` has not yet
reached `DoNothing`. -/
theorem while_unfold_step_count (c : Expr) (b : Stmt) (env : Environment) :
    (∀ n, Machine.steps (n + 1) (.While c b) env =
        Machine.steps n (.If c (.Sequence b (.While c b)) .DoNothing) env) ∧
    Machine.steps 0 (.While c b) env = some (.While c b, env) ∧
    (∀ (n : Nat) (E : Environment),
        Machine.steps (n + 1) (.While c b) env = some (.DoNothing, E) ↔
        Machine.steps n (.If c (.Sequence b (.While c b)) .DoNothing) env =
          some (.DoNothing, E)) :=
  ⟨fun _ => rfl, rfl, fun _ _ => Iff.rfl⟩

/-- C7: evaluating or reducing `Variable name` returns exactly the lookup
in the environment — the bound expression when present, failure when
absent, with no default and no implicit declaration; the lookup fails
exactly when no binding carries the name. -/
theorem variable_lookup_semantics (name : String) (env : Environment) :
    Expr.evalute (.Variable name) env = env.lookup name ∧
    Expr.reduce (.Variable name) env = env.lookup name ∧
    (env.lookup name = none ↔ ∀ p ∈ env, p.1 ≠ name) :=
  ⟨rfl, rfl, Environment.lookup_eq_none_iff env name⟩

/-- C7 witness: the lookup characterisation at a concrete absent name. -/
theorem variable_lookup_semantics_witness :
    Expr.evalute (.Variable "x") [("y", .Number 2)] =
      Environment.lookup [("y", .Number 2)] "x" :=
  (variable_lookup_semantics "x" [("y", .Number 2)]).1

/-- C8: `DoNothing`, `Number` and `Boolean` are not reducible, and calling
`reduce` on any non-reducible expression or statement fails
(`NotReducible`) — it never silently returns the term unchanged. -/
theorem terminal_not_reducible :
    Stmt.is_reducible .DoNothing = false ∧
    (∀ n : Int, Expr.is_reducible (.Number n) = false) ∧
    (∀ b : Bool, Expr.is_reducible (.Boolean b) = false) ∧
    (∀ (e : Expr) (env : Environment), e.is_reducible = false → e.reduce env = none) ∧
    (∀ (s : Stmt) (env : Environment), s.is_reducible = false → s.reduce env = none) := by
  refine ⟨rfl, fun n => rfl, fun b => rfl, ?_, ?_⟩
  · intro e env he
    cases e with
    | Number n => rfl
    | Boolean b => rfl
    | Add x y => simp [Expr.is_reducible] at he
    | Multiply x y => simp [Expr.is_reducible] at he
    | LessThan x y => simp [Expr.is_reducible] at he
    | Variable x => simp [Expr.is_reducible] at he
  · intro s env hs
    cases s with
    | DoNothing => rfl
    | Assign n e => simp [Stmt.is_reducible] at hs
    | If c t e => simp [Stmt.is_reducible] at hs
    | Sequence f s2 => simp [Stmt.is_reducible] at hs
    | While c b => simp [Stmt.is_reducible] at hs

/-- C8 witness: `reduce` fails on the non-reducible `DoNothing` and
`Number 5`. -/
theorem terminal_not_reducible_witness :
    Stmt.reduce .DoNothing [] = none ∧ Expr.reduce (.Number 5) [] = none :=
  ⟨terminal_not_reducible.2.2.2.2 .DoNothing [] rfl,
   terminal_not_reducible.2.2.2.1 (.Number 5) [] rfl⟩

/-- C9: determinism — on equal terms and equal environments, `reduce` and
`evalute` (expression and statement forms alike) produce equal results. -/
theorem evaluation_deterministic (e1 e2 : Expr) (s1 s2 : Stmt)
    (env1 env2 : Environment) (fuel : Nat)
    (he : e1 = e2) (hs : s1 = s2) (henv : env1 = env2) :
    e1.reduce env1 = e2.reduce env2 ∧
    e1.evalute env1 = e2.evalute env2 ∧
    Stmt.reduce s1 env1 = Stmt.reduce s2 env2 ∧
    Stmt.evalute fuel s1 env1 = Stmt.evalute fuel s2 env2 := by
  subst he; subst hs; subst henv
  exact ⟨rfl, rfl, rfl, rfl⟩

/-- C9 witness: determinism applied at concrete equal inputs. -/
theorem evaluation_deterministic_witness :
    (Expr.Variable "x").reduce [("x", Expr.Number 7)] =
      (Expr.Variable "x").reduce [("x", Expr.Number 7)] ∧
    (Expr.Variable "x").evalute [("x", Expr.Number 7)] =
      (Expr.Variable "x").evalute [("x", Expr.Number 7)] ∧
    Stmt.reduce .DoNothing [("x", Expr.Number 7)] =
      Stmt.reduce .DoNothing [("x", Expr.Number 7)] ∧
    Stmt.evalute 3 .DoNothing [("x", Expr.Number 7)] =
      Stmt.evalute 3 .DoNothing [("x", Expr.Number 7)] :=
  evaluation_deterministic (.Variable "x") (.Variable "x") .DoNothing .DoNothing
    [("x", Expr.Number 7)] [("x", Expr.Number 7)] 3 rfl rfl rfl

/-- C10: starting from a literal-only environment, every environment
produced by the machine (any number of small steps), by a single
`Stmt.reduce`, or by big-step `Stmt.evalute`, is again literal-only — no
operation stores a partially-reduced expression. -/
theorem literal_env_invariant (env : Environment) (hl : litEnv env = true) :
    (∀ (n : Nat) (s s1 : Stmt) (env1 : Environment),
        Machine.steps n s env = some (s1, env1) → litEnv env1 = true) ∧
    (∀ (s s1 : Stmt) (env1 : Environment),
        Stmt.reduce s env = some (s1, env1) → litEnv env1 = true) ∧
    (∀ (fuel : Nat) (s : Stmt) (E : Environment),
        Stmt.evalute fuel s env = some E → litEnv E = true) :=
  ⟨fun n s s1 env1 h => Machine.steps_preserves_litEnv n s env s1 env1 hl h,
   fun s s1 env1 h => Stmt.reduce_preserves_litEnv s env s1 env1 hl h,
   fun fuel s E h => Stmt.evalute_preserves_litEnv fuel s env E hl h⟩

/-- C10 witness: the invariant applied to `x = x + 1` evaluated big-step
from the literal-only environment `x ↦ 1`. -/
theorem literal_env_invariant_witness :
    litEnv [("x", Expr.Number 1)] = true ∧ litEnv [("x", Expr.Number 2)] = true :=
  ⟨rfl,
   (literal_env_invariant [("x", Expr.Number 1)] rfl).2.2 2
     (.Assign "x" (.Add (.Variable "x") (.Number 1))) [("x", Expr.Number 2)] (by decide)⟩

